import Mathlib

/-!
# Verification of the rag-as-a-service backend core

Shallow embedding, in Lean 4, of the core of the `rag-as-a-service`
backend (`backend/app/ingest.py`, `backend/app/vector_store.py`,
`backend/app/cleanup.py`, `backend/app/main.py`), together with proofs
of the spec-level claims about it.

Modelling conventions:
* Python `str` values that are sliced character-wise are modelled as
  `List Char`; `text[a:b]` becomes `(text.drop a).take (b - a)`.
* Python floats that are only carried around (bbox coordinates,
  embedding components, distances) are modelled as `Rat`; no float
  arithmetic from the source is modelled.
* The `while` loop of `chunk_text_blocks` is modelled with an explicit
  fuel parameter; fuel sufficiency (termination of the source loop) is
  itself one of the proved claims.
* External collaborators (PyMuPDF extraction, the SentenceTransformer
  embedder, ChromaDB's approximate-nearest-neighbour search) are
  abstracted as parameters/oracles; the repository's own code around
  them is modelled faithfully.
-/

namespace RagService

/-- `DataBlock` from `ingest.py`: a text block with its page (1-indexed)
and bounding box `(x0, y0, x1, y1)`. -/
structure DataBlock where
  text : List Char
  page : Nat
  bbox : Rat × Rat × Rat × Rat
  deriving DecidableEq, Repr

/-! ## Chunker (`ingest.py`, `chunk_text_blocks`)

The source loop, for one oversized block:
```
start = 0
while start < len(text):
    end = min(start + max_chars, len(text))
    chunk_text = text[start:end]
    chunked_blocks.append(DataBlock(chunk_text, block.page, block.bbox))
    start = end - overlap_chars if end < len(text) else end
```
`windowsFrom` is that loop with an explicit fuel parameter; `windows`
runs it from `start = 0` with fuel `text.length + 1`, which we prove
sufficient whenever `overlap < maxc` (claim C8). -/

/-- One iteration of the sliding-window loop of `chunk_text_blocks`,
with fuel making the recursion structural. -/
def windowsFrom (text : List Char) (maxc overlap : Nat) :
    Nat → Nat → List (List Char)
  | 0, _ => []
  | fuel + 1, start =>
    if start < text.length then
      let e := min (start + maxc) text.length
      let chunk := (text.drop start).take (e - start)
      chunk :: windowsFrom text maxc overlap fuel
        (if e < text.length then e - overlap else e)
    else []

/-- The sliding-window slices of `text` produced by the source loop
(`start = 0`, fuel `text.length + 1`). -/
def windows (text : List Char) (maxc overlap : Nat) : List (List Char) :=
  windowsFrom text maxc overlap (text.length + 1) 0

/-- `chunk_text_blocks` restricted to a single block: a block at or
under `maxc` characters is passed through unchanged, an oversized block
is replaced by its sliding-window slices, each carrying the parent's
page and bbox. -/
def chunkOne (maxc overlap : Nat) (b : DataBlock) : List DataBlock :=
  if b.text.length ≤ maxc then [b]
  else (windows b.text maxc overlap).map fun t => ⟨t, b.page, b.bbox⟩

/-- `chunk_text_blocks` from `ingest.py`: iterate over the blocks,
appending each block's chunks to one result list.  Source defaults are
`max_chars = 500`, `overlap_chars = 50`. -/
def chunk_text_blocks (blocks : List DataBlock)
    (maxc : Nat := 500) (overlap : Nat := 50) : List DataBlock :=
  blocks.foldl (fun acc b => acc ++ chunkOne maxc overlap b) []

/-- The sliding-window loop of `chunk_text_blocks` with the same body but
an arbitrary fuel bound, used to state that the source loop terminates:
any fuel at least the text length yields the canonical result. -/
def chunkOneFuel (maxc overlap fuel : Nat) (b : DataBlock) : List DataBlock :=
  if b.text.length ≤ maxc then [b]
  else (windowsFrom b.text maxc overlap fuel 0).map fun t => ⟨t, b.page, b.bbox⟩

/-- `chunk_text_blocks` with the per-block loop run on explicit fuel. -/
def chunkBlocksFuel (blocks : List DataBlock) (maxc overlap fuel : Nat) :
    List DataBlock :=
  blocks.foldl (fun acc b => acc ++ chunkOneFuel maxc overlap fuel b) []

/-- The slice of `text` cut by the window starting at `s`, that is
`text[s : min (s + maxc) (len text)]` in Python notation. -/
def windowSlice (text : List Char) (maxc s : Nat) : List Char :=
  (text.drop s).take (min maxc (text.length - s))

/-! ## Vector store (`vector_store.py`)

ChromaDB is modelled as an association list from collection names to
record lists.  A record packs what `add_documents` sends for one block:
the id `block_{i}`, the embedding, the document (the full block text)
and the metadata fields (page, the four bbox coordinates, and the text
copy truncated to 500 characters).  ChromaDB ignores an `add` of an id
that already exists in the collection (it logs a warning and skips the
record), which `collectionAdd` reproduces.  The approximate
nearest-neighbour search itself is an external collaborator and is
abstracted as a `search` function returning stored records with their
distances. -/

/-- One stored vector record, as assembled by `add_documents`. -/
structure VectorRecord where
  id : String
  embedding : List Rat
  document : List Char
  metaPage : Nat
  metaBBox : Rat × Rat × Rat × Rat
  metaText : List Char
  deriving DecidableEq, Repr

/-- The ChromaDB client state: collection name to stored records. -/
abbrev Store := List (String × List VectorRecord)

/-- Collection naming from `vector_store.py`: `f"session_{session_id}"`. -/
def collectionName (sid : String) : String := "session_" ++ sid

/-- `get_collection`: the session's collection, or `none` if absent. -/
def getCollection (store : Store) (sid : String) :
    Option (List VectorRecord) :=
  (store.find? fun p => p.1 == collectionName sid).map Prod.snd

/-- `create_collection`: delete any existing collection of that name,
then create a fresh empty one. -/
def createCollection (store : Store) (sid : String) : Store :=
  (store.filter fun p => p.1 != collectionName sid) ++ [(collectionName sid, [])]

/-- Replace the contents of the named collection. -/
def updateCollection (store : Store) (name : String)
    (recs : List VectorRecord) : Store :=
  store.map fun p => if p.1 == name then (p.1, recs) else p

/-- The records `add_documents` prepares: ids `block_{i}` numbered from
zero in this call, the full text as the document, and metadata holding
page, bbox and the text truncated to 500 characters. -/
def mkRecords (blocks : List DataBlock) (embeddings : List (List Rat)) :
    List VectorRecord :=
  (blocks.zip embeddings).enum.map fun ie =>
    { id := "block_" ++ toString ie.1
      embedding := ie.2.2
      document := ie.2.1.text
      metaPage := ie.2.1.page
      metaBBox := ie.2.1.bbox
      metaText := ie.2.1.text.take 500 }

/-- ChromaDB `collection.add`: records whose id already exists in the
collection are skipped (ChromaDB logs and ignores them). -/
def collectionAdd (recs newRecs : List VectorRecord) : List VectorRecord :=
  recs ++ newRecs.filter fun r => !(recs.any fun x => x.id == r.id)

/-- `add_documents`: fetch the session's collection (creating it when
absent) and add one record per block. -/
def add_documents (store : Store) (sid : String) (blocks : List DataBlock)
    (embeddings : List (List Rat)) : Store :=
  match getCollection store sid with
  | none =>
    updateCollection (createCollection store sid) (collectionName sid)
      (collectionAdd [] (mkRecords blocks embeddings))
  | some recs =>
    updateCollection store (collectionName sid)
      (collectionAdd recs (mkRecords blocks embeddings))

/-- One formatted query result, as built by `query` in
`vector_store.py`: 1-indexed citation id, the document text, and the
page/bbox/distance fields. -/
structure QueryResult where
  id : Nat
  text : List Char
  page : Nat
  bbox : List Rat
  distance : Rat
  deriving DecidableEq, Repr

/-- The result-formatting loop of `query`: the `text` field comes from
the stored document, page and bbox from the metadata. -/
def formatResults (hits : List (VectorRecord × Rat)) : List QueryResult :=
  hits.enum.map fun ih =>
    { id := ih.1 + 1
      text := ih.2.1.document
      page := ih.2.1.metaPage
      bbox := [ih.2.1.metaBBox.1, ih.2.1.metaBBox.2.1,
               ih.2.1.metaBBox.2.2.1, ih.2.1.metaBBox.2.2.2]
      distance := ih.2.2 }

/-- `query` from `vector_store.py`: empty result when the session has no
collection, otherwise the formatted hits of the underlying
nearest-neighbour search (`search`, an external collaborator that
returns stored records with distances). -/
def query (store : Store) (sid : String)
    (search : List VectorRecord → Nat → List (VectorRecord × Rat))
    (topK : Nat) : List QueryResult :=
  match getCollection store sid with
  | none => []
  | some recs => formatResults (search recs topK)

/-- `delete_collection`: returns `true` and removes the collection when
present; ChromaDB raises when it is absent, which the source catches and
turns into `false` with no state change. -/
def delete_collection (store : Store) (sid : String) : Bool × Store :=
  if store.any fun p => p.1 == collectionName sid then
    (true, store.filter fun p => p.1 != collectionName sid)
  else
    (false, store)

/-! ## Session registry and expiry sweeper (`cleanup.py`)

Timestamps are modelled as absolute UTC minutes (`Int`); the UTC day of
a timestamp is its floor-division by 1440.  The rows are stamped with
SQLite's `CURRENT_TIMESTAMP`, rendered `YYYY-MM-DD HH:MM:SS`, while the
expiry query compares them against `datetime.utcnow().isoformat()`,
rendered `YYYY-MM-DDTHH:MM:SS.ffffff`; SQLite compares the two TEXT
values byte-wise under BINARY collation.  `storedLtIsoCutoff` models
the outcome of that byte-wise comparison (see its docstring): it is NOT
the chronological order of the two instants.  A teardown step of
`delete_session` may raise (ChromaDB outage, filesystem error, SQLite
error); this is modelled by an oracle `fail` giving, per session id,
the index of the step that raises (`none` meaning the teardown
completes).  A step that raises leaves its own effect unapplied; the
effects of earlier steps persist, as they do in the Python code. -/

/-- One row of the `sessions` SQLite table. -/
structure SessionRow where
  sid : String
  createdAt : Int
  lastAccessed : Int
  pdfFilename : String
  deriving DecidableEq, Repr

/-- `SESSION_EXPIRY_MINUTES` from `cleanup.py`. -/
def SESSION_EXPIRY_MINUTES : Int := 30

/-- The byte-wise TEXT comparison SQLite performs for
`last_accessed < ?` in `get_expired_sessions`, between a stored
`CURRENT_TIMESTAMP` value `YYYY-MM-DD HH:MM:SS` and the bound
`isoformat()` cutoff `YYYY-MM-DDTHH:MM:SS.ffffff`.  Both date prefixes
are fixed-width and zero-padded, so when the UTC dates differ the first
ten bytes decide the comparison chronologically; when the dates are
equal the comparison is decided at byte 10, where the stored value's
`' '` (0x20) sorts below the cutoff's `'T'` (0x54).  Hence the stored
value compares below the cutoff iff its UTC date is at most the
cutoff's UTC date.  With timestamps as absolute UTC minutes, the UTC
day is the floor-division by 1440. -/
def storedLtIsoCutoff (stored cutoff : Int) : Bool :=
  decide (Int.fdiv stored 1440 < Int.fdiv cutoff 1440 ∨
    Int.fdiv stored 1440 = Int.fdiv cutoff 1440)

/-- `get_expired_sessions`: the rows the query
`WHERE last_accessed < ?` returns for the cutoff
`utcnow() - SESSION_EXPIRY_MINUTES` — under the byte-wise TEXT
comparison `storedLtIsoCutoff` that SQLite actually performs on the two
mismatched timestamp formats. -/
def get_expired_sessions (rows : List SessionRow) (now : Int) :
    List SessionRow :=
  rows.filter fun r =>
    storedLtIsoCutoff r.lastAccessed (now - SESSION_EXPIRY_MINUTES)

/-- Name of the temporary PDF saved for a session:
`temp_pdfs/{session_id}.pdf`. -/
def pdfFileName (sid : String) : String := sid ++ ".pdf"

/-- The mutable state the cleanup module touches: the registry rows, the
ChromaDB store and the temporary PDF files. -/
structure World where
  sessions : List SessionRow
  store : Store
  files : List String

/-- `delete_session`: ChromaDB collection deletion, then temporary file
removal, then the SQLite row deletion — in that order.  `fail sid` gives
the step at which the teardown raises, if any; the returned flag tells
whether the teardown ran to completion. -/
def delete_session (fail : String → Option (Fin 3)) (sid : String)
    (w : World) : Bool × World :=
  if fail sid = some 0 then (false, w)
  else
    let w1 := { w with store := (delete_collection w.store sid).2 }
    if fail sid = some 1 then (false, w1)
    else
      let w2 := { w1 with files := w1.files.filter fun f => decide (f ≠ pdfFileName sid) }
      if fail sid = some 2 then (false, w2)
      else
        (true, { w2 with sessions := w2.sessions.filter fun r => decide (r.sid ≠ sid) })

/-- The `for session in expired` loop of `cleanup_expired_sessions`: a
failed teardown is logged and the loop continues; only a completed
teardown increments the count. -/
def sweepRun (fail : String → Option (Fin 3)) :
    List SessionRow → Nat × World → Nat × World
  | [], acc => acc
  | s :: rest, acc =>
    let r := delete_session fail s.sid acc.2
    sweepRun fail rest (if r.1 then acc.1 + 1 else acc.1, r.2)

/-- `cleanup_expired_sessions`: sweep every expired session, returning
the number of sessions fully reclaimed. -/
def cleanup_expired_sessions (fail : String → Option (Fin 3)) (now : Int)
    (w : World) : Nat × World :=
  sweepRun fail (get_expired_sessions w.sessions now) (0, w)

/-! ## Upload pipeline after the temporary file is written
(`main.py`, `upload_pdf`, lines 149-196)

The outcomes of the external steps (PyMuPDF extraction, the embedder,
the ChromaDB add, the SQLite insert) are oracle fields of `UploadEnv`.
The source wraps the pipeline in `try/except`: an `HTTPException`
raised inside the `try` block is re-raised unchanged by the
`except HTTPException: raise` arm (no cleanup runs), while any other
exception deletes the temporary file — and only the temporary file —
before a 500 error is raised. -/

/-- State touched by the upload pipeline. -/
structure UploadState where
  tempFiles : List String
  store : Store
  registry : List String

/-- Outcome of `upload_pdf`: a response (carrying the block count) or an
HTTP error status. -/
inductive UploadResult where
  | success (blockCount : Nat)
  | failure (statusCode : Nat)
  deriving DecidableEq, Repr

/-- Oracle outcomes of the external steps of one upload. -/
structure UploadEnv where
  extracted : Option (List DataBlock)
  embedOk : Bool
  embeddings : List (List Rat)
  addOk : Bool
  registerOk : Bool

/-- The ingestion pipeline of `upload_pdf` from the point where the
temporary PDF has been written: extract, reject empty documents, chunk,
embed, create the collection and add documents, register the session.
`except HTTPException: raise` re-raises the 400 for an empty document
without any cleanup; `except Exception` removes the temporary file (and
nothing else) before raising a 500. -/
def upload_pdf_after_save (env : UploadEnv) (sid : String)
    (st : UploadState) : UploadResult × UploadState :=
  match env.extracted with
  | none =>
    (.failure 500,
      { st with tempFiles := st.tempFiles.filter fun f => decide (f ≠ pdfFileName sid) })
  | some blocks =>
    if blocks.isEmpty then
      (.failure 400, st)
    else
      let chunked := chunk_text_blocks blocks 500 50
      if !env.embedOk then
        (.failure 500,
          { st with tempFiles := st.tempFiles.filter fun f => decide (f ≠ pdfFileName sid) })
      else
        let st1 := { st with store := createCollection st.store sid }
        if !env.addOk then
          (.failure 500,
            { st1 with tempFiles := st1.tempFiles.filter fun f => decide (f ≠ pdfFileName sid) })
        else
          let st2 := { st1 with store := add_documents st1.store sid chunked env.embeddings }
          if !env.registerOk then
            (.failure 500,
              { st2 with tempFiles := st2.tempFiles.filter fun f => decide (f ≠ pdfFileName sid) })
          else
            (.success chunked.length, { st2 with registry := st2.registry ++ [sid] })

/-! ## Chunker lemmas -/

theorem windowsFrom_of_le {text : List Char} {maxc overlap fuel start : Nat}
    (hs : text.length ≤ start) :
    windowsFrom text maxc overlap fuel start = [] := by
  cases fuel with
  | zero => rfl
  | succ f => simp [windowsFrom, Nat.not_lt.mpr hs]

theorem windowsFrom_last {text : List Char} {maxc overlap fuel start : Nat}
    (hs : start < text.length) (hL : text.length ≤ start + maxc) :
    windowsFrom text maxc overlap (fuel + 1) start = [text.drop start] := by
  have he : min (start + maxc) text.length = text.length := min_eq_right hL
  have htake : (text.drop start).take (text.length - start) = text.drop start := by
    rw [← List.length_drop]
    exact List.take_length _
  simp only [windowsFrom, if_pos hs, he, lt_irrefl, htake, if_false,
    windowsFrom_of_le (le_refl text.length)]

theorem windowsFrom_step {text : List Char} {maxc overlap fuel start : Nat}
    (hL : start + maxc < text.length) :
    windowsFrom text maxc overlap (fuel + 1) start =
      (text.drop start).take maxc ::
        windowsFrom text maxc overlap fuel (start + maxc - overlap) := by
  have hs : start < text.length := lt_of_le_of_lt (Nat.le_add_right _ _) hL
  have he : min (start + maxc) text.length = start + maxc := min_eq_left (le_of_lt hL)
  simp only [windowsFrom, if_pos hs, he, if_pos hL, Nat.add_sub_cancel_left]

theorem windowsFrom_fuel_eq {text : List Char} {maxc overlap : Nat}
    (hk : overlap < maxc) :
    ∀ d start fuel fuel', text.length - start ≤ d →
      text.length - start ≤ fuel → text.length - start ≤ fuel' →
      windowsFrom text maxc overlap fuel start =
        windowsFrom text maxc overlap fuel' start := by
  intro d
  induction d with
  | zero =>
    intro start fuel fuel' hd _ _
    have hs : text.length ≤ start := by omega
    rw [windowsFrom_of_le hs, windowsFrom_of_le hs]
  | succ d ih =>
    intro start fuel fuel' hd hf hf'
    by_cases hs : start < text.length
    · obtain ⟨f, rfl⟩ : ∃ f, fuel = f + 1 := ⟨fuel - 1, by omega⟩
      obtain ⟨f', rfl⟩ : ∃ f', fuel' = f' + 1 := ⟨fuel' - 1, by omega⟩
      by_cases hL : text.length ≤ start + maxc
      · rw [windowsFrom_last hs hL, windowsFrom_last hs hL]
      · push_neg at hL
        rw [windowsFrom_step hL, windowsFrom_step hL]
        congr 1
        exact ih (start + maxc - overlap) f f' (by omega) (by omega) (by omega)
    · push_neg at hs
      rw [windowsFrom_of_le hs, windowsFrom_of_le hs]

theorem length_le_of_mem_windowsFrom {text : List Char} {maxc overlap : Nat} :
    ∀ fuel start c, c ∈ windowsFrom text maxc overlap fuel start →
      c.length ≤ maxc := by
  intro fuel
  induction fuel with
  | zero => intro start c hc; simp [windowsFrom] at hc
  | succ f ih =>
    intro start c hc
    by_cases hs : start < text.length
    · simp only [windowsFrom, if_pos hs] at hc
      rcases List.mem_cons.mp hc with h | h
      · subst h
        have h1 : (min (start + maxc) text.length) - start ≤ maxc := by omega
        calc ((text.drop start).take (min (start + maxc) text.length - start)).length
            ≤ min (start + maxc) text.length - start := by
              rw [List.length_take]; exact min_le_left _ _
          _ ≤ maxc := h1
      · exact ih _ _ h
    · rw [windowsFrom_of_le (by omega)] at hc
      simp at hc

theorem windowsFrom_spec {text : List Char} {maxc overlap : Nat}
    (hk : overlap < maxc) :
    ∀ d start fuel, start < text.length → text.length - start ≤ d →
      text.length - start ≤ fuel →
      0 < (windowsFrom text maxc overlap fuel start).length ∧
      (∀ i (hi : i < (windowsFrom text maxc overlap fuel start).length),
        (windowsFrom text maxc overlap fuel start).get ⟨i, hi⟩ =
          windowSlice text maxc (start + i * (maxc - overlap))) ∧
      text.length ≤ start +
        ((windowsFrom text maxc overlap fuel start).length - 1) *
          (maxc - overlap) + maxc ∧
      (∀ i, i + 1 < (windowsFrom text maxc overlap fuel start).length →
        start + i * (maxc - overlap) + maxc < text.length) := by
  intro d
  induction d with
  | zero =>
    intro start fuel hs hd
    exact absurd hs (by omega)
  | succ d ih =>
    intro start fuel hs hd hf
    obtain ⟨f, rfl⟩ : ∃ f, fuel = f + 1 := ⟨fuel - 1, by omega⟩
    by_cases hL : text.length ≤ start + maxc
    · rw [windowsFrom_last hs hL]
      refine ⟨by simp, ?_, by simpa using hL, ?_⟩
      · intro i hi
        have hi0 : i = 0 := by
          simpa using Nat.lt_one_iff.mp (by simpa using hi)
        subst hi0
        show text.drop start = windowSlice text maxc (start + 0 * (maxc - overlap))
        simp only [Nat.zero_mul, Nat.add_zero, windowSlice]
        rw [min_eq_right (by omega : text.length - start ≤ maxc)]
        rw [← List.length_drop]
        exact (List.take_length _).symm
      · intro i hi
        simp at hi
    · push_neg at hL
      rw [windowsFrom_step hL]
      have hs' : start + maxc - overlap < text.length := by omega
      obtain ⟨h1, h2, h3, h4⟩ :=
        ih (start + maxc - overlap) f hs' (by omega) (by omega)
      refine ⟨by simp, ?_, ?_, ?_⟩
      · intro i hi
        cases i with
        | zero =>
          show (text.drop start).take maxc =
            windowSlice text maxc (start + 0 * (maxc - overlap))
          simp only [Nat.zero_mul, Nat.add_zero, windowSlice]
          rw [min_eq_left (by omega : maxc ≤ text.length - start)]
        | succ j =>
          have hj : j <
              (windowsFrom text maxc overlap f (start + maxc - overlap)).length := by
            simpa using hi
          rw [List.get_cons_succ]
          rw [h2 j hj]
          congr 1
          rw [Nat.succ_mul]
          have hko : start + maxc - overlap = start + (maxc - overlap) := by omega
          rw [hko]
          generalize j * (maxc - overlap) = P
          omega
      · simp only [List.length_cons, Nat.add_sub_cancel]
        obtain ⟨m, hm⟩ : ∃ m,
            (windowsFrom text maxc overlap f (start + maxc - overlap)).length =
              m + 1 :=
          ⟨(windowsFrom text maxc overlap f (start + maxc - overlap)).length - 1,
            by omega⟩
        rw [hm] at h3
        simp only [Nat.add_sub_cancel] at h3
        rw [hm, Nat.succ_mul]
        have hko : start + maxc - overlap = start + (maxc - overlap) := by omega
        rw [hko] at h3
        generalize m * (maxc - overlap) = P at h3 ⊢
        omega
      · intro i hi
        cases i with
        | zero => simpa using hL
        | succ j =>
          have hj : j + 1 <
              (windowsFrom text maxc overlap f (start + maxc - overlap)).length := by
            simpa using hi
          have h4' := h4 j hj
          rw [Nat.succ_mul]
          have hko : start + maxc - overlap = start + (maxc - overlap) := by omega
          rw [hko] at h4'
          generalize j * (maxc - overlap) = P at h4' ⊢
          omega

theorem windows_spec {text : List Char} {maxc overlap : Nat}
    (hk : overlap < maxc) (hlen : maxc < text.length) :
    0 < (windows text maxc overlap).length ∧
    (∀ i (hi : i < (windows text maxc overlap).length),
      (windows text maxc overlap).get ⟨i, hi⟩ =
        windowSlice text maxc (i * (maxc - overlap))) ∧
    text.length ≤
      ((windows text maxc overlap).length - 1) * (maxc - overlap) + maxc ∧
    (∀ i, i + 1 < (windows text maxc overlap).length →
      i * (maxc - overlap) + maxc < text.length) := by
  have h := @windowsFrom_spec text maxc overlap hk text.length 0 (text.length + 1)
    (by omega) (by omega) (by omega)
  unfold windows
  simpa using h

theorem foldl_append_eq_flatMap (g : DataBlock → List DataBlock) :
    ∀ (blocks : List DataBlock) (acc : List DataBlock),
      blocks.foldl (fun a b => a ++ g b) acc = acc ++ blocks.flatMap g := by
  intro blocks
  induction blocks with
  | nil => intro acc; simp
  | cons b bs ih =>
    intro acc
    simp only [List.foldl_cons, List.flatMap_cons, ih, List.append_assoc]

theorem chunk_text_blocks_eq_flatMap (blocks : List DataBlock)
    (maxc overlap : Nat) :
    chunk_text_blocks blocks maxc overlap =
      blocks.flatMap (chunkOne maxc overlap) := by
  simpa using foldl_append_eq_flatMap (chunkOne maxc overlap) blocks []

theorem flatMap_congr_mem {g1 g2 : DataBlock → List DataBlock} :
    ∀ blocks : List DataBlock, (∀ b ∈ blocks, g1 b = g2 b) →
      blocks.flatMap g1 = blocks.flatMap g2 := by
  intro blocks
  induction blocks with
  | nil => intro _; rfl
  | cons b bs ih =>
    intro h
    simp only [List.flatMap_cons]
    rw [h b (by simp), ih fun x hx => h x (by simp [hx])]

theorem chunkOneFuel_eq {maxc overlap fuel : Nat} {b : DataBlock}
    (h1 : overlap < maxc) (hb : b.text.length ≤ fuel) :
    chunkOneFuel maxc overlap fuel b = chunkOne maxc overlap b := by
  by_cases hble : b.text.length ≤ maxc
  · simp [chunkOneFuel, chunkOne, hble]
  · simp only [chunkOneFuel, chunkOne, if_neg hble, windows]
    congr 1
    exact windowsFrom_fuel_eq h1 b.text.length 0 fuel (b.text.length + 1)
      (by omega) (by omega) (by omega)

/-! ## Chunker claims -/

/-- C6: for `overlap_chars < max_chars`, every chunk emitted by
`chunk_text_blocks` has text length at most `max_chars`, and every
input block whose text is already at or under `max_chars` appears in
the output unchanged. -/
theorem chunker_bound_and_identity (blocks : List DataBlock)
    (maxc overlap : Nat) (h : overlap < maxc) :
    (∀ c ∈ chunk_text_blocks blocks maxc overlap, c.text.length ≤ maxc) ∧
    (∀ b ∈ blocks, b.text.length ≤ maxc →
      b ∈ chunk_text_blocks blocks maxc overlap) := by
  rw [chunk_text_blocks_eq_flatMap]
  constructor
  · intro c hc
    obtain ⟨b, hb, hcb⟩ := List.mem_flatMap.mp hc
    by_cases hble : b.text.length ≤ maxc
    · rw [chunkOne, if_pos hble] at hcb
      simp only [List.mem_singleton] at hcb
      subst hcb
      exact hble
    · rw [chunkOne, if_neg hble] at hcb
      obtain ⟨t, ht, rfl⟩ := List.mem_map.mp hcb
      exact length_le_of_mem_windowsFrom _ _ _ ht
  · intro b hb hble
    refine List.mem_flatMap.mpr ⟨b, hb, ?_⟩
    simp [chunkOne, hble]

theorem chunker_bound_and_identity_witness :
    (1 : Nat) < 4 ∧
    ((∀ c ∈ chunk_text_blocks [⟨"abcdefghij".toList, 1, (0, 0, 0, 0)⟩] 4 1,
        c.text.length ≤ 4) ∧
      (∀ b ∈ [(⟨"abcdefghij".toList, 1, (0, 0, 0, 0)⟩ : DataBlock)],
        b.text.length ≤ 4 →
        b ∈ chunk_text_blocks [⟨"abcdefghij".toList, 1, (0, 0, 0, 0)⟩] 4 1)) :=
  ⟨by decide,
    chunker_bound_and_identity [⟨"abcdefghij".toList, 1, (0, 0, 0, 0)⟩] 4 1
      (by decide)⟩

/-- C7: for an oversized block (`maxc < len`, with `overlap < maxc`),
`chunk_text_blocks` slices it with a sliding window: the `i`-th chunk is
the slice starting at `i * (maxc - overlap)` (so each window starts
`maxc - overlap` after the previous one), the final slice reaches the
end of the text, each pair of consecutive chunks overlaps in exactly
`overlap` characters, and every chunk carries the parent's page and
bbox. -/
theorem chunker_sliding_window (b : DataBlock) (maxc overlap : Nat)
    (h1 : overlap < maxc) (h2 : maxc < b.text.length) :
    chunkOne maxc overlap b =
      (windows b.text maxc overlap).map (fun t => ⟨t, b.page, b.bbox⟩) ∧
    0 < (windows b.text maxc overlap).length ∧
    (∀ i (hi : i < (windows b.text maxc overlap).length),
      (windows b.text maxc overlap).get ⟨i, hi⟩ =
        (b.text.drop (i * (maxc - overlap))).take
          (min maxc (b.text.length - i * (maxc - overlap)))) ∧
    b.text.length ≤
      ((windows b.text maxc overlap).length - 1) * (maxc - overlap) + maxc ∧
    (∀ i (hi : i + 1 < (windows b.text maxc overlap).length),
      ((windows b.text maxc overlap).get ⟨i, Nat.lt_of_succ_lt hi⟩).drop
          (maxc - overlap) =
        ((windows b.text maxc overlap).get ⟨i + 1, hi⟩).take overlap) := by
  obtain ⟨hpos, hget, hlast, hfull⟩ := windows_spec h1 h2
  refine ⟨by simp [chunkOne, Nat.not_le.mpr h2], hpos, hget, hlast, ?_⟩
  intro i hi
  have hfi : i * (maxc - overlap) + maxc < b.text.length := hfull i hi
  rw [hget i (Nat.lt_of_succ_lt hi), hget (i + 1) hi]
  unfold windowSlice
  have hmin1 : min maxc (b.text.length - i * (maxc - overlap)) = maxc :=
    min_eq_left (by omega)
  rw [hmin1, List.drop_take, List.drop_drop, List.take_take]
  have hik : i * (maxc - overlap) + (maxc - overlap) = (i + 1) * (maxc - overlap) := by
    rw [Nat.succ_mul]
  have hmo : maxc - (maxc - overlap) = overlap := by omega
  have hlt2 : (i + 1) * (maxc - overlap) + overlap < b.text.length := by
    rw [Nat.succ_mul]
    generalize i * (maxc - overlap) = P at hfi ⊢
    omega
  have hmin2 : min overlap (min maxc (b.text.length - (i + 1) * (maxc - overlap)))
      = overlap :=
    min_eq_left (le_min (le_of_lt h1) (by omega))
  rw [hik, hmo, hmin2]

theorem chunker_sliding_window_witness :
    (1 : Nat) < 4 ∧ 4 < ("abcdefghijk".toList : List Char).length ∧
    (chunkOne 4 1 ⟨"abcdefghijk".toList, 2, (1, 2, 3, 4)⟩ =
      (windows ("abcdefghijk".toList) 4 1).map
        (fun t => ⟨t, 2, (1, 2, 3, 4)⟩) ∧
      0 < (windows ("abcdefghijk".toList) 4 1).length ∧
      (∀ i (hi : i < (windows ("abcdefghijk".toList) 4 1).length),
        (windows ("abcdefghijk".toList) 4 1).get ⟨i, hi⟩ =
          (("abcdefghijk".toList).drop (i * (4 - 1))).take
            (min 4 (("abcdefghijk".toList : List Char).length - i * (4 - 1)))) ∧
      ("abcdefghijk".toList : List Char).length ≤
        ((windows ("abcdefghijk".toList) 4 1).length - 1) * (4 - 1) + 4 ∧
      (∀ i (hi : i + 1 < (windows ("abcdefghijk".toList) 4 1).length),
        ((windows ("abcdefghijk".toList) 4 1).get
            ⟨i, Nat.lt_of_succ_lt hi⟩).drop (4 - 1) =
          ((windows ("abcdefghijk".toList) 4 1).get ⟨i + 1, hi⟩).take 1)) :=
  ⟨by decide, by decide,
    chunker_sliding_window ⟨"abcdefghijk".toList, 2, (1, 2, 3, 4)⟩ 4 1
      (by decide) (by decide)⟩

/-- C8: under `overlap < maxc` the per-block loop of
`chunk_text_blocks` terminates on every finite input: running it with
any fuel at least the block's text length already yields the canonical
result (the loop performs at most `text.length` iterations), because
each non-final iteration strictly advances the window start. -/
theorem chunker_terminates (blocks : List DataBlock)
    (maxc overlap fuel : Nat) (h1 : overlap < maxc)
    (h2 : ∀ b ∈ blocks, b.text.length ≤ fuel) :
    chunkBlocksFuel blocks maxc overlap fuel =
      chunk_text_blocks blocks maxc overlap ∧
    (∀ (text : List Char) (start f2 : Nat), start + maxc < text.length →
      windowsFrom text maxc overlap (f2 + 1) start =
        (text.drop start).take maxc ::
          windowsFrom text maxc overlap f2 (start + maxc - overlap) ∧
      start < start + maxc - overlap) := by
  constructor
  · have hl : chunkBlocksFuel blocks maxc overlap fuel =
        blocks.flatMap (chunkOneFuel maxc overlap fuel) := by
      simpa [chunkBlocksFuel] using
        foldl_append_eq_flatMap (chunkOneFuel maxc overlap fuel) blocks []
    rw [hl, chunk_text_blocks_eq_flatMap]
    exact flatMap_congr_mem blocks fun b hb => chunkOneFuel_eq h1 (h2 b hb)
  · intro text start f2 hst
    exact ⟨windowsFrom_step hst, by omega⟩

theorem chunker_terminates_witness :
    (1 : Nat) < 4 ∧
    (∀ b ∈ [(⟨"abcdefghijk".toList, 1, (0, 0, 0, 0)⟩ : DataBlock)],
      b.text.length ≤ 11) ∧
    (chunkBlocksFuel [⟨"abcdefghijk".toList, 1, (0, 0, 0, 0)⟩] 4 1 11 =
      chunk_text_blocks [⟨"abcdefghijk".toList, 1, (0, 0, 0, 0)⟩] 4 1 ∧
    (∀ (text : List Char) (start f2 : Nat), start + 4 < text.length →
      windowsFrom text 4 1 (f2 + 1) start =
        (text.drop start).take 4 ::
          windowsFrom text 4 1 f2 (start + 4 - 1) ∧
      start < start + 4 - 1)) :=
  ⟨by decide, by decide,
    chunker_terminates [⟨"abcdefghijk".toList, 1, (0, 0, 0, 0)⟩] 4 1 11
      (by decide) (by decide)⟩

theorem windowSlice_length (text : List Char) (maxc s : Nat) :
    (windowSlice text maxc s).length = min maxc (text.length - s) := by
  unfold windowSlice
  rw [List.length_take, List.length_drop, min_assoc, min_self]

/-- C10: chunking never drops text — every character position of every
input block is covered by at least one of the chunks derived from that
block — and the output lists each block's chunks contiguously (the
result is the concatenation of the per-block chunk lists, in input
order) with the chunks of an oversized block ordered by strictly
increasing window starts. -/
theorem chunker_covers_all_text (blocks : List DataBlock)
    (maxc overlap : Nat) (h1 : overlap < maxc) :
    chunk_text_blocks blocks maxc overlap =
      blocks.flatMap (chunkOne maxc overlap) ∧
    (∀ (b : DataBlock) (p : Nat), p < b.text.length →
      ∃ c ∈ chunkOne maxc overlap b, ∃ s,
        c.text = (b.text.drop s).take c.text.length ∧
        s ≤ p ∧ p < s + c.text.length) ∧
    (∀ b : DataBlock, maxc < b.text.length →
      ∀ i j (hi : i < (windows b.text maxc overlap).length)
        (hj : j < (windows b.text maxc overlap).length), i < j →
        (windows b.text maxc overlap).get ⟨i, hi⟩ =
          windowSlice b.text maxc (i * (maxc - overlap)) ∧
        (windows b.text maxc overlap).get ⟨j, hj⟩ =
          windowSlice b.text maxc (j * (maxc - overlap)) ∧
        i * (maxc - overlap) < j * (maxc - overlap)) := by
  refine ⟨chunk_text_blocks_eq_flatMap blocks maxc overlap, ?_, ?_⟩
  · intro b p hp
    by_cases hble : b.text.length ≤ maxc
    · refine ⟨b, by simp [chunkOne, hble], 0, ?_, Nat.zero_le _, by simpa using hp⟩
      simp
    · push_neg at hble
      obtain ⟨hpos, hget, hlast, hfull⟩ := windows_spec h1 hble
      have hco : chunkOne maxc overlap b =
          (windows b.text maxc overlap).map (fun t => ⟨t, b.page, b.bbox⟩) := by
        simp [chunkOne, Nat.not_le.mpr hble]
      have hk0 : 0 < maxc - overlap := by omega
      -- choose the covering window index
      by_cases hdiv : p / (maxc - overlap) < (windows b.text maxc overlap).length
      · refine ⟨⟨(windows b.text maxc overlap).get ⟨p / (maxc - overlap), hdiv⟩,
          b.page, b.bbox⟩, ?_, p / (maxc - overlap) * (maxc - overlap), ?_, ?_, ?_⟩
        · rw [hco]
          exact List.mem_map_of_mem _ (List.get_mem _ _ _)
        · show (windows b.text maxc overlap).get ⟨p / (maxc - overlap), hdiv⟩ =
            (b.text.drop (p / (maxc - overlap) * (maxc - overlap))).take
              ((windows b.text maxc overlap).get ⟨p / (maxc - overlap), hdiv⟩).length
          rw [hget _ hdiv, windowSlice_length]
          rfl
        · exact Nat.div_mul_le_self p (maxc - overlap)
        · show p < p / (maxc - overlap) * (maxc - overlap) +
            ((windows b.text maxc overlap).get ⟨p / (maxc - overlap), hdiv⟩).length
          rw [hget _ hdiv, windowSlice_length]
          have hp_lt : p < p / (maxc - overlap) * (maxc - overlap) + (maxc - overlap) :=
            calc p = (maxc - overlap) * (p / (maxc - overlap)) + p % (maxc - overlap) :=
                  (Nat.div_add_mod p (maxc - overlap)).symm
              _ < (maxc - overlap) * (p / (maxc - overlap)) + (maxc - overlap) :=
                  Nat.add_lt_add_left (Nat.mod_lt p hk0) _
              _ = p / (maxc - overlap) * (maxc - overlap) + (maxc - overlap) := by
                  rw [Nat.mul_comm]
          rcases le_total maxc
              (b.text.length - p / (maxc - overlap) * (maxc - overlap)) with hmm | hmm
          · rw [min_eq_left hmm]
            exact lt_of_lt_of_le hp_lt
              (Nat.add_le_add_left (Nat.sub_le maxc overlap) _)
          · rw [min_eq_right hmm]
            rw [Nat.add_sub_cancel'
              (le_trans (Nat.div_mul_le_self p (maxc - overlap)) (le_of_lt hp))]
            exact hp
      · push_neg at hdiv
        have hi : (windows b.text maxc overlap).length - 1 <
            (windows b.text maxc overlap).length := by omega
        have hs_le : ((windows b.text maxc overlap).length - 1) * (maxc - overlap) ≤ p := by
          have h5 : (windows b.text maxc overlap).length * (maxc - overlap) ≤
              p / (maxc - overlap) * (maxc - overlap) :=
            Nat.mul_le_mul_right _ hdiv
          have h6 : ((windows b.text maxc overlap).length - 1) * (maxc - overlap) ≤
              (windows b.text maxc overlap).length * (maxc - overlap) :=
            Nat.mul_le_mul_right _ (by omega)
          exact le_trans h6 (le_trans h5 (Nat.div_mul_le_self p _))
        refine ⟨⟨(windows b.text maxc overlap).get
            ⟨(windows b.text maxc overlap).length - 1, hi⟩, b.page, b.bbox⟩,
          ?_, ((windows b.text maxc overlap).length - 1) * (maxc - overlap),
          ?_, hs_le, ?_⟩
        · rw [hco]
          exact List.mem_map_of_mem _ (List.get_mem _ _ _)
        · show (windows b.text maxc overlap).get
              ⟨(windows b.text maxc overlap).length - 1, hi⟩ =
            (b.text.drop (((windows b.text maxc overlap).length - 1) *
                (maxc - overlap))).take
              ((windows b.text maxc overlap).get
                ⟨(windows b.text maxc overlap).length - 1, hi⟩).length
          rw [hget _ hi, windowSlice_length]
          rfl
        · show p < ((windows b.text maxc overlap).length - 1) * (maxc - overlap) +
            ((windows b.text maxc overlap).get
              ⟨(windows b.text maxc overlap).length - 1, hi⟩).length
          rw [hget _ hi, windowSlice_length]
          rcases le_total maxc
              (b.text.length -
                ((windows b.text maxc overlap).length - 1) * (maxc - overlap)) with
            hmm | hmm
          · rw [min_eq_left hmm]
            exact lt_of_lt_of_le hp hlast
          · rw [min_eq_right hmm]
            rw [Nat.add_sub_cancel' (le_trans hs_le (le_of_lt hp))]
            exact hp
  · intro b hb i j hi hj hij
    obtain ⟨hpos, hget, hlast, hfull⟩ := windows_spec h1 hb
    exact ⟨hget i hi, hget j hj,
      (Nat.mul_lt_mul_right (by omega)).mpr hij⟩

theorem chunker_covers_all_text_witness :
    (1 : Nat) < 4 ∧
    ((chunk_text_blocks [⟨"abcdefghijk".toList, 1, (0, 0, 0, 0)⟩] 4 1 =
        [(⟨"abcdefghijk".toList, 1, (0, 0, 0, 0)⟩ : DataBlock)].flatMap
          (chunkOne 4 1)) ∧
      (∀ (b : DataBlock) (p : Nat), p < b.text.length →
        ∃ c ∈ chunkOne 4 1 b, ∃ s,
          c.text = (b.text.drop s).take c.text.length ∧
          s ≤ p ∧ p < s + c.text.length) ∧
      (∀ b : DataBlock, 4 < b.text.length →
        ∀ i j (hi : i < (windows b.text 4 1).length)
          (hj : j < (windows b.text 4 1).length), i < j →
          (windows b.text 4 1).get ⟨i, hi⟩ =
            windowSlice b.text 4 (i * (4 - 1)) ∧
          (windows b.text 4 1).get ⟨j, hj⟩ =
            windowSlice b.text 4 (j * (4 - 1)) ∧
          i * (4 - 1) < j * (4 - 1))) :=
  ⟨by decide,
    chunker_covers_all_text [⟨"abcdefghijk".toList, 1, (0, 0, 0, 0)⟩] 4 1
      (by decide)⟩

/-! ## Vector store lemmas -/

theorem getCollection_create (store : Store) (sid : String) :
    getCollection (createCollection store sid) sid = some [] := by
  unfold getCollection createCollection
  induction store with
  | nil => simp [List.find?]
  | cons p ps ih =>
    by_cases hp : p.1 == collectionName sid
    · have hbne : (p.1 != collectionName sid) = false := by
        simp [bne, hp]
      simpa [List.filter_cons, hbne] using ih
    · have hbne : (p.1 != collectionName sid) = true := by
        simp [bne, hp]
      simpa [List.filter_cons, hbne, List.find?, hp] using ih

theorem getCollection_update_self (store : Store) (sid : String)
    (recs : List VectorRecord) (h : (getCollection store sid).isSome) :
    getCollection (updateCollection store (collectionName sid) recs) sid =
      some recs := by
  unfold getCollection updateCollection
  induction store with
  | nil => simp [getCollection, List.find?] at h
  | cons p ps ih =>
    by_cases hp : p.1 == collectionName sid
    · simp [List.find?, hp]
    · have h' : (getCollection ps sid).isSome := by
        simpa [getCollection, List.find?, hp] using h
      simpa [List.find?, hp] using ih h'

theorem collectionAdd_nil (newRecs : List VectorRecord) :
    collectionAdd [] newRecs = newRecs := by
  unfold collectionAdd
  simp

theorem getCollection_add_fresh {store : Store} {sid : String}
    (blocks : List DataBlock) (embeddings : List (List Rat))
    (hnone : getCollection store sid = none) :
    getCollection (add_documents store sid blocks embeddings) sid =
      some (mkRecords blocks embeddings) := by
  unfold add_documents
  rw [hnone]
  rw [getCollection_update_self _ _ _
    (by rw [getCollection_create]; rfl)]
  rw [collectionAdd_nil]

theorem mem_of_mem_enum {α : Type} {l : List α} {i : Nat} {x : α}
    (h : (i, x) ∈ l.enum) : x ∈ l := by
  rw [List.enum_eq_zip_range] at h
  exact (List.of_mem_zip h).2

theorem mem_mkRecords {blocks : List DataBlock}
    {embeddings : List (List Rat)} {r : VectorRecord}
    (h : r ∈ mkRecords blocks embeddings) :
    ∃ b ∈ blocks, r.document = b.text ∧ r.metaText = b.text.take 500 := by
  unfold mkRecords at h
  obtain ⟨ie, hmem, rfl⟩ := List.mem_map.mp h
  obtain ⟨i, b, e⟩ := ie
  have hb : (b, e) ∈ blocks.zip embeddings := mem_of_mem_enum hmem
  exact ⟨b, (List.of_mem_zip hb).1, rfl, rfl⟩

/-! ## Vector store claims -/

/-- C2: a block stored by `add_documents` and later returned by `query`
comes back with its full original text — the `text` field of the result
is the stored document, which is the untruncated block text — while the
500-character truncation applies only to the metadata copy of the text.
The nearest-neighbour search is abstracted by any `search` that returns
stored records. -/
theorem query_returns_full_chunk_text (store : Store) (sid : String)
    (blocks : List DataBlock) (embeddings : List (List Rat))
    (search : List VectorRecord → Nat → List (VectorRecord × Rat))
    (topK : Nat) (hnone : getCollection store sid = none)
    (hsearch : ∀ recs k, ∀ hit ∈ search recs k, hit.1 ∈ recs) :
    (∀ res ∈ query (add_documents store sid blocks embeddings) sid search topK,
      ∃ b ∈ blocks, res.text = b.text) ∧
    (∀ recs, getCollection (add_documents store sid blocks embeddings) sid =
        some recs →
      ∀ r ∈ recs, r.metaText = r.document.take 500) := by
  have hcoll := getCollection_add_fresh blocks embeddings hnone
  constructor
  · intro res hres
    unfold query at hres
    rw [hcoll] at hres
    unfold formatResults at hres
    obtain ⟨ih, hmem, rfl⟩ := List.mem_map.mp hres
    obtain ⟨i, r, d⟩ := ih
    have hr : (r, d) ∈ search (mkRecords blocks embeddings) topK :=
      mem_of_mem_enum hmem
    have hrm : r ∈ mkRecords blocks embeddings := hsearch _ _ _ hr
    obtain ⟨b, hb, hdoc, _⟩ := mem_mkRecords hrm
    exact ⟨b, hb, hdoc⟩
  · intro recs hrecs r hr
    rw [hcoll] at hrecs
    obtain rfl : mkRecords blocks embeddings = recs := by
      injection hrecs
    obtain ⟨b, _, hdoc, hmeta⟩ := mem_mkRecords hr
    rw [hmeta, hdoc]

theorem query_returns_full_chunk_text_witness :
    getCollection ([] : Store) "s" = none ∧
    (∀ recs k, ∀ hit ∈ (fun (recs : List VectorRecord) (_ : Nat) =>
        recs.map fun r => (r, (0 : Rat))) recs k, hit.1 ∈ recs) ∧
    ((∀ res ∈ query
        (add_documents [] "s" [⟨List.replicate 501 'a', 1, (0, 0, 0, 0)⟩] [[1]])
        "s" (fun recs _ => recs.map fun r => (r, (0 : Rat))) 3,
      ∃ b ∈ [(⟨List.replicate 501 'a', 1, (0, 0, 0, 0)⟩ : DataBlock)],
        res.text = b.text) ∧
    (∀ recs, getCollection
        (add_documents [] "s" [⟨List.replicate 501 'a', 1, (0, 0, 0, 0)⟩] [[1]])
        "s" = some recs →
      ∀ r ∈ recs, r.metaText = r.document.take 500)) :=
  ⟨rfl,
    fun recs k hit hh => by
      obtain ⟨r, hr, rfl⟩ := List.mem_map.mp hh
      exact hr,
    query_returns_full_chunk_text [] "s"
      [⟨List.replicate 501 'a', 1, (0, 0, 0, 0)⟩] [[1]]
      (fun recs _ => recs.map fun r => (r, (0 : Rat))) 3 rfl
      (fun recs k hit hh => by
        obtain ⟨r, hr, rfl⟩ := List.mem_map.mp hh
        exact hr)⟩

theorem mkRecords_length (blocks : List DataBlock)
    (embeddings : List (List Rat)) :
    (mkRecords blocks embeddings).length =
      min blocks.length embeddings.length := by
  simp [mkRecords, List.enum_length, List.length_zip]

/-- C3 counterexample: after `add` of one block on session `s`, a second
`add` of one block on the same session does not grow the collection to
two records — ids restart at `block_0` on every call, so the new record
collides with the stored one and is not appended. -/
theorem add_documents_second_add_counterexample :
    (getCollection
        (add_documents
          (add_documents [] "s" [⟨['a'], 1, (0, 0, 0, 0)⟩] [[1]])
          "s" [⟨['b'], 2, (0, 0, 0, 0)⟩] [[2]]) "s").map List.length =
      some 1 ∧
    ¬ (getCollection
        (add_documents
          (add_documents [] "s" [⟨['a'], 1, (0, 0, 0, 0)⟩] [[1]])
          "s" [⟨['b'], 2, (0, 0, 0, 0)⟩] [[2]]) "s").map List.length =
      some 2 := by
  decide

/-- C3 (amended): when the session has no collection yet or an empty one
— as in the upload flow, where `create_collection` always precedes
`add_documents` — `add` appends exactly `len(blocks)` records, one per
block, pairing each block's text, page and bbox with its embedding.  A
later `add` on a non-empty collection of the same session regenerates
the same ids `block_0, block_1, ...` and the colliding records are not
appended. -/
theorem add_documents_appends_to_empty (store : Store) (sid : String)
    (blocks : List DataBlock) (embeddings : List (List Rat))
    (hlen : blocks.length = embeddings.length)
    (hempty : getCollection store sid = none ∨
      getCollection store sid = some []) :
    ∃ recs,
      getCollection (add_documents store sid blocks embeddings) sid =
        some recs ∧
      recs.length = blocks.length ∧
      (∀ i (hi : i < recs.length) (hib : i < blocks.length)
          (hie : i < embeddings.length),
        (recs.get ⟨i, hi⟩).document = (blocks.get ⟨i, hib⟩).text ∧
        (recs.get ⟨i, hi⟩).embedding = embeddings.get ⟨i, hie⟩ ∧
        (recs.get ⟨i, hi⟩).metaPage = (blocks.get ⟨i, hib⟩).page ∧
        (recs.get ⟨i, hi⟩).metaBBox = (blocks.get ⟨i, hib⟩).bbox) := by
  refine ⟨mkRecords blocks embeddings, ?_, ?_, ?_⟩
  · rcases hempty with h | h
    · exact getCollection_add_fresh blocks embeddings h
    · unfold add_documents
      rw [h]
      rw [getCollection_update_self _ _ _ (by rw [h]; rfl)]
      rw [collectionAdd_nil]
  · rw [mkRecords_length, hlen, min_self]
  · intro i hi hib hie
    simp only [List.get_eq_getElem]
    unfold mkRecords
    simp only [List.getElem_map, List.getElem_enum, List.getElem_zip]
    exact ⟨trivial, trivial, trivial, trivial⟩

theorem add_documents_appends_to_empty_witness :
    ([(⟨['a'], 1, (0, 0, 0, 0)⟩ : DataBlock)].length = [[(1 : Rat)]].length) ∧
    (getCollection ([] : Store) "s" = none ∨
      getCollection ([] : Store) "s" = some []) ∧
    (∃ recs,
      getCollection (add_documents [] "s" [⟨['a'], 1, (0, 0, 0, 0)⟩] [[1]])
          "s" = some recs ∧
      recs.length = [(⟨['a'], 1, (0, 0, 0, 0)⟩ : DataBlock)].length ∧
      (∀ i (hi : i < recs.length)
          (hib : i < [(⟨['a'], 1, (0, 0, 0, 0)⟩ : DataBlock)].length)
          (hie : i < [[(1 : Rat)]].length),
        (recs.get ⟨i, hi⟩).document =
          ([(⟨['a'], 1, (0, 0, 0, 0)⟩ : DataBlock)].get ⟨i, hib⟩).text ∧
        (recs.get ⟨i, hi⟩).embedding = [[(1 : Rat)]].get ⟨i, hie⟩ ∧
        (recs.get ⟨i, hi⟩).metaPage =
          ([(⟨['a'], 1, (0, 0, 0, 0)⟩ : DataBlock)].get ⟨i, hib⟩).page ∧
        (recs.get ⟨i, hi⟩).metaBBox =
          ([(⟨['a'], 1, (0, 0, 0, 0)⟩ : DataBlock)].get ⟨i, hib⟩).bbox)) :=
  ⟨rfl, Or.inl rfl,
    add_documents_appends_to_empty [] "s" [⟨['a'], 1, (0, 0, 0, 0)⟩] [[1]]
      rfl (Or.inl rfl)⟩

theorem delete_collection_no_match (store : Store) (sid : String) :
    ∀ p ∈ (delete_collection store sid).2,
      (p.1 == collectionName sid) = false := by
  intro p hp
  unfold delete_collection at hp
  by_cases h : (store.any fun q => q.1 == collectionName sid) = true
  · rw [if_pos h] at hp
    have := (List.mem_filter.mp hp).2
    simpa [bne] using this
  · rw [if_neg h] at hp
    have hall := List.any_eq_false.mp (Bool.not_eq_true _ ▸ h)
    simpa using hall p hp

theorem getCollection_delete_none (store : Store) (sid : String) :
    getCollection (delete_collection store sid).2 sid = none := by
  unfold getCollection
  have hfind : ((delete_collection store sid).2.find?
      fun p => p.1 == collectionName sid) = none :=
    List.find?_eq_none.mpr fun p hp => by
      simp [delete_collection_no_match store sid p hp]
  rw [hfind]
  rfl

theorem delete_collection_of_no_match {store : Store} {sid : String}
    (h : (store.any fun p => p.1 == collectionName sid) = false) :
    delete_collection store sid = (false, store) := by
  unfold delete_collection
  rw [h]
  simp

/-- C9: `query` on a session with no collection returns the empty list
instead of raising; after `delete`, a `query` on that session returns
the empty list and a second `delete` reports `false` ("nothing to
delete") instead of raising. -/
theorem query_empty_and_delete_idempotent (store store2 : Store)
    (sid : String)
    (search : List VectorRecord → Nat → List (VectorRecord × Rat))
    (topK : Nat) (hnone : getCollection store sid = none) :
    query store sid search topK = [] ∧
    query (delete_collection store2 sid).2 sid search topK = [] ∧
    (delete_collection (delete_collection store2 sid).2 sid).1 = false := by
  refine ⟨?_, ?_, ?_⟩
  · unfold query
    rw [hnone]
  · unfold query
    rw [getCollection_delete_none]
  · have hany : ((delete_collection store2 sid).2.any
        fun p => p.1 == collectionName sid) = false :=
      List.any_eq_false.mpr fun p hp => by
        simp [delete_collection_no_match store2 sid p hp]
    rw [delete_collection_of_no_match hany]

theorem query_empty_and_delete_idempotent_witness :
    getCollection [("session_a", ([] : List VectorRecord))] "b" = none ∧
    (query [("session_a", ([] : List VectorRecord))] "b"
        (fun recs _ => recs.map fun r => (r, (0 : Rat))) 3 = [] ∧
      query (delete_collection [("session_a", ([] : List VectorRecord))] "b").2
        "b" (fun recs _ => recs.map fun r => (r, (0 : Rat))) 3 = [] ∧
      (delete_collection
        (delete_collection [("session_a", ([] : List VectorRecord))] "b").2
        "b").1 = false) :=
  ⟨rfl,
    query_empty_and_delete_idempotent
      [("session_a", [])] [("session_a", [])] "b"
      (fun recs _ => recs.map fun r => (r, (0 : Rat))) 3 rfl⟩

/-! ## Cleanup lemmas -/

theorem delete_session_flag (fail : String → Option (Fin 3)) (sid : String)
    (w : World) :
    (delete_session fail sid w).1 = (fail sid).isNone := by
  rcases h : fail sid with _ | j
  · simp [delete_session, h]
  · fin_cases j <;> simp [delete_session, h]

theorem delete_session_sessions (fail : String → Option (Fin 3))
    (sid : String) (w : World) :
    (delete_session fail sid w).2.sessions =
      if (fail sid).isNone then
        w.sessions.filter fun r => decide (r.sid ≠ sid)
      else w.sessions := by
  rcases h : fail sid with _ | j
  · simp [delete_session, h]
  · fin_cases j <;> simp [delete_session, h]

theorem delete_collection_store_sub (store : Store) (sid : String) :
    ∀ p ∈ (delete_collection store sid).2, p ∈ store := by
  intro p hp
  unfold delete_collection at hp
  by_cases h : (store.any fun q => q.1 == collectionName sid) = true
  · rw [if_pos h] at hp
    exact (List.mem_filter.mp hp).1
  · rwa [if_neg h] at hp

theorem delete_session_store_sub (fail : String → Option (Fin 3))
    (sid : String) (w : World) :
    ∀ p ∈ (delete_session fail sid w).2.store, p ∈ w.store := by
  intro p hp
  rcases h : fail sid with _ | j
  · simp only [delete_session, h] at hp
    simp at hp
    exact delete_collection_store_sub _ _ p hp
  · fin_cases j <;> simp [delete_session, h] at hp <;>
      first
        | exact hp
        | exact delete_collection_store_sub _ _ p hp

theorem delete_session_files_sub (fail : String → Option (Fin 3))
    (sid : String) (w : World) :
    ∀ f ∈ (delete_session fail sid w).2.files, f ∈ w.files := by
  intro f hf
  rcases h : fail sid with _ | j
  · simp [delete_session, h, List.mem_filter] at hf
    exact hf.1
  · fin_cases j <;> simp [delete_session, h, List.mem_filter] at hf <;>
      first
        | exact hf
        | exact hf.1

theorem delete_session_collection_removed (fail : String → Option (Fin 3))
    (sid : String) (w : World) (h0 : fail sid ≠ some 0) :
    ∀ p ∈ (delete_session fail sid w).2.store,
      (p.1 == collectionName sid) = false := by
  intro p hp
  rcases h : fail sid with _ | j
  · simp [delete_session, h] at hp
    exact delete_collection_no_match _ _ p hp
  · fin_cases j
    · exact absurd h h0
    · simp [delete_session, h] at hp
      exact delete_collection_no_match _ _ p hp
    · simp [delete_session, h] at hp
      exact delete_collection_no_match _ _ p hp

theorem delete_session_file_removed (fail : String → Option (Fin 3))
    (sid : String) (w : World) (h0 : fail sid ≠ some 0)
    (h1 : fail sid ≠ some 1) :
    pdfFileName sid ∉ (delete_session fail sid w).2.files := by
  intro hmem
  rcases h : fail sid with _ | j
  · simp [delete_session, h, List.mem_filter] at hmem
  · fin_cases j
    · exact absurd h h0
    · exact absurd h h1
    · simp [delete_session, h, List.mem_filter] at hmem

theorem sweepRun_count (fail : String → Option (Fin 3)) :
    ∀ (l : List SessionRow) (count : Nat) (w : World),
      (sweepRun fail l (count, w)).1 =
        count + (l.filter fun s => (fail s.sid).isNone).length := by
  intro l
  induction l with
  | nil => intro count w; simp [sweepRun]
  | cons s rest ih =>
    intro count w
    simp only [sweepRun, delete_session_flag]
    by_cases hh : (fail s.sid).isNone = true
    · simp only [hh, if_true, ih, List.filter_cons, List.length_cons]
      omega
    · simp only [hh, if_false, ih, List.filter_cons]
      simp

theorem sweepRun_mem_sessions (fail : String → Option (Fin 3)) :
    ∀ (l : List SessionRow) (count : Nat) (w : World) (r : SessionRow),
      r ∈ (sweepRun fail l (count, w)).2.sessions ↔
        r ∈ w.sessions ∧ ∀ s ∈ l, fail s.sid = none → r.sid ≠ s.sid := by
  intro l
  induction l with
  | nil => intro count w r; simp [sweepRun]
  | cons s rest ih =>
    intro count w r
    simp only [sweepRun]
    rw [ih, delete_session_sessions]
    by_cases hh : (fail s.sid).isNone = true
    · rw [if_pos hh]
      have hfnone : fail s.sid = none := Option.isNone_iff_eq_none.mp hh
      simp only [List.mem_filter, decide_eq_true_eq, List.forall_mem_cons,
        hfnone, forall_true_left]
      tauto
    · rw [if_neg hh]
      have hfsome : ¬ fail s.sid = none := by
        simpa [Option.isNone_iff_eq_none] using hh
      simp only [List.forall_mem_cons, hfsome, false_implies, true_and]

theorem sweepRun_store_sub (fail : String → Option (Fin 3)) :
    ∀ (l : List SessionRow) (count : Nat) (w : World),
      ∀ p ∈ (sweepRun fail l (count, w)).2.store, p ∈ w.store := by
  intro l
  induction l with
  | nil => intro count w p hp; simpa [sweepRun] using hp
  | cons s rest ih =>
    intro count w p hp
    simp only [sweepRun] at hp
    exact delete_session_store_sub fail s.sid w p (ih _ _ p hp)

theorem sweepRun_files_sub (fail : String → Option (Fin 3)) :
    ∀ (l : List SessionRow) (count : Nat) (w : World),
      ∀ f ∈ (sweepRun fail l (count, w)).2.files, f ∈ w.files := by
  intro l
  induction l with
  | nil => intro count w f hf; simpa [sweepRun] using hf
  | cons s rest ih =>
    intro count w f hf
    simp only [sweepRun] at hf
    exact delete_session_files_sub fail s.sid w f (ih _ _ f hf)

theorem sweepRun_collection_removed (fail : String → Option (Fin 3)) :
    ∀ (l : List SessionRow) (count : Nat) (w : World) (s : SessionRow),
      s ∈ l → fail s.sid ≠ some 0 →
      ∀ p ∈ (sweepRun fail l (count, w)).2.store,
        (p.1 == collectionName s.sid) = false := by
  intro l
  induction l with
  | nil => intro count w s hs; simp at hs
  | cons t rest ih =>
    intro count w s hs h0 p hp
    simp only [sweepRun] at hp
    rcases List.mem_cons.mp hs with rfl | hs'
    · have hp' := sweepRun_store_sub fail rest _ _ p hp
      exact delete_session_collection_removed fail s.sid w h0 p hp'
    · exact ih _ _ s hs' h0 p hp

theorem sweepRun_file_removed (fail : String → Option (Fin 3)) :
    ∀ (l : List SessionRow) (count : Nat) (w : World) (s : SessionRow),
      s ∈ l → fail s.sid ≠ some 0 → fail s.sid ≠ some 1 →
      pdfFileName s.sid ∉ (sweepRun fail l (count, w)).2.files := by
  intro l
  induction l with
  | nil => intro count w s hs; simp at hs
  | cons t rest ih =>
    intro count w s hs h0 h1 hmem
    simp only [sweepRun] at hmem
    rcases List.mem_cons.mp hs with rfl | hs'
    · have hmem' := sweepRun_files_sub fail rest _ _ _ hmem
      exact delete_session_file_removed fail s.sid w h0 h1 hmem'
    · exact ih _ _ s hs' h0 h1 hmem

theorem mem_sessions_of_mem_expired {rows : List SessionRow} {now : Int}
    {s : SessionRow} (h : s ∈ get_expired_sessions rows now) : s ∈ rows := by
  unfold get_expired_sessions at h
  exact (List.mem_filter.mp h).1

/-! ## Cleanup claims -/

/-- C4: a failing teardown of one expired session does not abort the
sweep: the returned count is the number of sessions whose teardown ran
to completion, every session whose teardown failed at any step keeps its
registry row (the row is deleted only as the final teardown step), and
for every fully torn-down session the registry row, the ChromaDB
collection and the temporary file are all gone. -/
theorem sweep_continues_and_retries (w : World) (now : Int)
    (fail : String → Option (Fin 3))
    (hnodup : (w.sessions.map SessionRow.sid).Nodup) :
    (cleanup_expired_sessions fail now w).1 =
      ((get_expired_sessions w.sessions now).filter
        fun s => (fail s.sid).isNone).length ∧
    (∀ s ∈ get_expired_sessions w.sessions now, (fail s.sid).isSome →
      s ∈ (cleanup_expired_sessions fail now w).2.sessions) ∧
    (∀ s ∈ get_expired_sessions w.sessions now, fail s.sid = none →
      (∀ r ∈ (cleanup_expired_sessions fail now w).2.sessions,
        r.sid ≠ s.sid) ∧
      getCollection (cleanup_expired_sessions fail now w).2.store s.sid =
        none ∧
      pdfFileName s.sid ∉ (cleanup_expired_sessions fail now w).2.files) := by
  refine ⟨?_, ?_, ?_⟩
  · unfold cleanup_expired_sessions
    rw [sweepRun_count]
    omega
  · intro s hs hsome
    unfold cleanup_expired_sessions
    rw [sweepRun_mem_sessions]
    refine ⟨mem_sessions_of_mem_expired hs, ?_⟩
    intro t ht htnone heq
    have hts : t ∈ w.sessions := mem_sessions_of_mem_expired ht
    have hss : s ∈ w.sessions := mem_sessions_of_mem_expired hs
    have hst : s = t := List.inj_on_of_nodup_map hnodup hss hts heq
    rw [← hst] at htnone
    rw [htnone] at hsome
    simp at hsome
  · intro s hs hfnone
    refine ⟨?_, ?_, ?_⟩
    · intro r hr
      unfold cleanup_expired_sessions at hr
      rw [sweepRun_mem_sessions] at hr
      exact hr.2 s hs hfnone
    · unfold cleanup_expired_sessions getCollection
      have hfind : (((sweepRun fail (get_expired_sessions w.sessions now)
          (0, w)).2.store).find? fun p => p.1 == collectionName s.sid) =
            none :=
        List.find?_eq_none.mpr fun p hp => by
          simp [sweepRun_collection_removed fail _ 0 w s hs
            (by rw [hfnone]; intro hc; cases hc) p hp]
      rw [hfind]
      rfl
    · exact sweepRun_file_removed fail _ 0 w s hs
        (by rw [hfnone]; intro hc; cases hc)
        (by rw [hfnone]; intro hc; cases hc)

theorem sweep_continues_and_retries_witness :
    (([⟨"a", 0, 0, "a.pdf"⟩, ⟨"b", 0, 0, "b.pdf"⟩] :
        List SessionRow).map SessionRow.sid).Nodup ∧
    ((cleanup_expired_sessions
        (fun sid => if sid = "a" then some 1 else none) 100
        ⟨[⟨"a", 0, 0, "a.pdf"⟩, ⟨"b", 0, 0, "b.pdf"⟩],
          [("session_a", []), ("session_b", [])],
          ["a.pdf", "b.pdf"]⟩).1 =
      ((get_expired_sessions
          [⟨"a", 0, 0, "a.pdf"⟩, ⟨"b", 0, 0, "b.pdf"⟩] 100).filter
        fun s => ((if s.sid = "a" then some 1 else none : Option (Fin 3))).isNone).length ∧
      (∀ s ∈ get_expired_sessions
          [⟨"a", 0, 0, "a.pdf"⟩, ⟨"b", 0, 0, "b.pdf"⟩] 100,
        ((if s.sid = "a" then some 1 else none : Option (Fin 3))).isSome →
        s ∈ (cleanup_expired_sessions
          (fun sid => if sid = "a" then some 1 else none) 100
          ⟨[⟨"a", 0, 0, "a.pdf"⟩, ⟨"b", 0, 0, "b.pdf"⟩],
            [("session_a", []), ("session_b", [])],
            ["a.pdf", "b.pdf"]⟩).2.sessions) ∧
      (∀ s ∈ get_expired_sessions
          [⟨"a", 0, 0, "a.pdf"⟩, ⟨"b", 0, 0, "b.pdf"⟩] 100,
        (if s.sid = "a" then some 1 else none : Option (Fin 3)) = none →
        (∀ r ∈ (cleanup_expired_sessions
            (fun sid => if sid = "a" then some 1 else none) 100
            ⟨[⟨"a", 0, 0, "a.pdf"⟩, ⟨"b", 0, 0, "b.pdf"⟩],
              [("session_a", []), ("session_b", [])],
              ["a.pdf", "b.pdf"]⟩).2.sessions, r.sid ≠ s.sid) ∧
        getCollection (cleanup_expired_sessions
            (fun sid => if sid = "a" then some 1 else none) 100
            ⟨[⟨"a", 0, 0, "a.pdf"⟩, ⟨"b", 0, 0, "b.pdf"⟩],
              [("session_a", []), ("session_b", [])],
              ["a.pdf", "b.pdf"]⟩).2.store s.sid = none ∧
        pdfFileName s.sid ∉ (cleanup_expired_sessions
            (fun sid => if sid = "a" then some 1 else none) 100
            ⟨[⟨"a", 0, 0, "a.pdf"⟩, ⟨"b", 0, 0, "b.pdf"⟩],
              [("session_a", []), ("session_b", [])],
              ["a.pdf", "b.pdf"]⟩).2.files)) :=
  ⟨by decide,
    sweep_continues_and_retries
      ⟨[⟨"a", 0, 0, "a.pdf"⟩, ⟨"b", 0, 0, "b.pdf"⟩],
        [("session_a", []), ("session_b", [])],
        ["a.pdf", "b.pdf"]⟩ 100
      (fun sid => if sid = "a" then some 1 else none) (by decide)⟩

/-- C5 (code bug): the expiry query does not implement the 30-minute
boundary.  The rows store `CURRENT_TIMESTAMP` (`YYYY-MM-DD HH:MM:SS`)
while the query binds `utcnow().isoformat()`
(`YYYY-MM-DDTHH:MM:SS.ffffff`); SQLite compares the two TEXT values
byte-wise, and on equal UTC dates byte 10 decides: `' '` sorts below
`'T'`, so every session whose last access shares the cutoff's UTC date
is returned as expired.  Concretely, with a sweep at minute 1440170
(02:50 UTC on day 1000): a session last accessed 29 minutes earlier
(02:21 UTC, same date as the 02:20 cutoff) is returned by
`get_expired_sessions` and its registry row is deleted by that sweep,
and even a session last accessed at the very minute of the sweep is
returned as expired — contradicting the claim that exactly the
sessions strictly older than `now - 30min` are reclaimed. -/
theorem expired_sessions_same_date_bug :
    (⟨"a", 1440141, 1440141, "a.pdf"⟩ : SessionRow) ∈
      get_expired_sessions [⟨"a", 1440141, 1440141, "a.pdf"⟩] 1440170 ∧
    (⟨"a", 1440141, 1440141, "a.pdf"⟩ : SessionRow) ∉
      (cleanup_expired_sessions (fun _ => none) 1440170
        ⟨[⟨"a", 1440141, 1440141, "a.pdf"⟩], [("session_a", [])],
          ["a.pdf"]⟩).2.sessions ∧
    (⟨"b", 1440170, 1440170, "b.pdf"⟩ : SessionRow) ∈
      get_expired_sessions [⟨"b", 1440170, 1440170, "b.pdf"⟩] 1440170 := by
  decide

/-! ## Upload pipeline claim -/

/-- C1 (code bug): the upload pipeline does NOT clean up every failure
after the temporary file is written.  First run: extraction succeeds
with zero blocks, so the code raises `HTTPException(400)` inside the
`try` block; the `except HTTPException: raise` arm re-raises it without
deleting the temporary file, which survives.  Second run: extraction
yields one block but `add_documents` fails after `create_collection`;
the generic handler removes the temporary file but never deletes the
just-created collection, which survives as orphaned index state. -/
theorem upload_orphans_artifacts_on_failure :
    (upload_pdf_after_save ⟨some [], true, [], true, true⟩ "s"
        ⟨["s.pdf"], [], []⟩).1 = .failure 400 ∧
    "s.pdf" ∈ (upload_pdf_after_save ⟨some [], true, [], true, true⟩ "s"
        ⟨["s.pdf"], [], []⟩).2.tempFiles ∧
    (upload_pdf_after_save
        ⟨some [⟨['a'], 1, (0, 0, 0, 0)⟩], true, [[1]], false, true⟩ "s"
        ⟨["s.pdf"], [], []⟩).1 = .failure 500 ∧
    "s.pdf" ∉ (upload_pdf_after_save
        ⟨some [⟨['a'], 1, (0, 0, 0, 0)⟩], true, [[1]], false, true⟩ "s"
        ⟨["s.pdf"], [], []⟩).2.tempFiles ∧
    getCollection (upload_pdf_after_save
        ⟨some [⟨['a'], 1, (0, 0, 0, 0)⟩], true, [[1]], false, true⟩ "s"
        ⟨["s.pdf"], [], []⟩).2.store "s" = some [] := by
  decide

end RagService
